import Mathlib

/-!
Verification of the OwLite post-training-quantization calibration core.

Shallow embedding of:
- src/src/owlite/calib/calibrator.py (Calibrator base class)
- src/src/owlite/calib/percentile_calibrator.py (PercentileCalibrator)
- src/src/owlite/calibrators.py (CalibrationContext and its helpers)

Tensors of real numbers are embedded as lists of rationals (exact
arithmetic; the claims under study are about index selection, control
flow and sign handling, not about floating-point rounding).  Fallible
Python code is embedded in the Except monad, and the logging sink as an
explicit list of emitted events.  The global torch deterministic-mode
flag is threaded explicitly as a Bool.
-/

/-- Severity levels of the logging sink used by the calibration core. -/
inductive LogLevel
  | info
  | warning
  | error
  deriving DecidableEq, Repr

/-- A single event emitted to the logging sink. -/
structure LogEvent where
  level : LogLevel
  msg : String
  deriving DecidableEq, Repr

/-- The Python exception classes that the embedded calibration code can raise. -/
inductive PyErr
  | assertionError
  | valueError
  deriving DecidableEq, Repr

/-- The per-calibration state owned by a HistogramCalibrator/PercentileCalibrator:
the optional hook handle (`hook_handler` in calibrator.py, line 45), the per-channel
histogram counts, per-channel bin edges, per-channel bin counts, and the configured
percentile. -/
structure CalibState where
  hook_handler : Option Unit
  histogram : List (List ℚ)
  bin_edges : List (List ℚ)
  histc_bins : List ℕ
  percentile : ℚ
  deriving DecidableEq, Repr

/-- The consumed FakeQuantizer interface (spec section 3): per-channel step sizes,
the representable maximum magnitude, the enablement flag, and the calibration
state of the calibrator assigned to it (the quantizer/calibrator pair is
flattened into one record; the back-reference is modelled separately where
identity matters, see `QuantizerView`). -/
structure FakeQuantizer where
  step_size : List ℚ
  maxabs_bound : ℚ
  is_enabled : Bool
  calib : CalibState
  deriving DecidableEq, Repr

/-- The two fields of a FakeQuantizer read by `Calibrator.check_calib_ready`
(calibrator.py, lines 48-60): the identity of the calibrator the quantizer
points back to (object identity is modelled by a numeric id) and the
enablement flag. -/
structure QuantizerView where
  calibrator_id : ℕ
  is_enabled : Bool
  deriving DecidableEq, Repr

/-- Calibrator.check_calib_ready (calibrator.py, lines 48-60): logs an error and
returns false when the back-reference does not point to this calibrator, logs an
error and returns false when the quantizer is enabled, and returns true
otherwise.  `self_id` is the identity of the calibrator the method is invoked
on. -/
def check_calib_ready (self_id : ℕ) (q : QuantizerView) : Bool × List LogEvent :=
  if q.calibrator_id ≠ self_id then
    (false, [⟨LogLevel.error, "The calibrator does not match the calibrator that the quantizer points"⟩])
  else if q.is_enabled then
    (false, [⟨LogLevel.error, "The quantizer should be disabled during calibration."⟩])
  else
    (true, [])

/-- Modelled from the spec: `HistogramCalibrator.__init__` (histogram_calibrator.py
is not under src/) initialises empty per-channel histogram storage (spec section 3),
and `Calibrator.__init__` (calibrator.py, lines 44-46) sets the hook handle to None. -/
def initCalibState : CalibState :=
  { hook_handler := none, histogram := [], bin_edges := [], histc_bins := [], percentile := 0 }

/-- PercentileCalibrator.__init__ (percentile_calibrator.py, lines 26-38): run the
base initialiser, then raise ValueError unless the percentile lies in [0, 100]. -/
def PercentileCalibrator.init (q0 : FakeQuantizer) (percentile : ℚ) :
    Except PyErr FakeQuantizer :=
  let q1 : FakeQuantizer := { q0 with calib := initCalibState }
  if percentile < 0 ∨ 100 < percentile then Except.error PyErr.valueError
  else Except.ok { q1 with calib := { q1.calib with percentile := percentile } }

/-- A concrete quantizer with no calibration data, used to instantiate theorems. -/
def exampleQuantizer : FakeQuantizer :=
  { step_size := [1], maxabs_bound := 127, is_enabled := false, calib := initCalibState }

/-- Claim C9: check_calib_ready returns False exactly when the back-reference does
not point to this calibrator or the quantizer is enabled, logging an error in
either case instead of raising (it is a total function into Bool), and returns
True exactly when neither condition holds. -/
theorem check_calib_ready_spec (self_id : ℕ) (q : QuantizerView) :
    ((check_calib_ready self_id q).1 = false ↔
      (q.calibrator_id ≠ self_id ∨ q.is_enabled = true))
    ∧ ((check_calib_ready self_id q).1 = false →
        ∃ e ∈ (check_calib_ready self_id q).2, e.level = LogLevel.error)
    ∧ ((check_calib_ready self_id q).1 = true ↔
        (q.calibrator_id = self_id ∧ q.is_enabled = false)) := by
  unfold check_calib_ready
  by_cases h1 : q.calibrator_id = self_id <;> by_cases h2 : q.is_enabled <;>
    simp [h1, h2]

/-- Witness for C9 at concrete inputs: a mismatched back-reference yields false,
a matching disabled quantizer yields true. -/
theorem check_calib_ready_spec_witness :
    (check_calib_ready 0 ⟨1, false⟩).1 = false ∧ (check_calib_ready 0 ⟨0, false⟩).1 = true := by
  constructor
  · exact (check_calib_ready_spec 0 ⟨1, false⟩).1.mpr (Or.inl (by decide))
  · exact (check_calib_ready_spec 0 ⟨0, false⟩).2.2.mpr ⟨rfl, rfl⟩

/-- Claim C6: construction succeeds exactly for percentile in [0, 100]; for any
value outside that interval the constructor raises ValueError, so no calibrator
state for that percentile ever becomes usable. -/
theorem percentile_init_range (q0 : FakeQuantizer) (p : ℚ) :
    ((∃ q1, PercentileCalibrator.init q0 p = Except.ok q1) ↔ (0 ≤ p ∧ p ≤ 100))
    ∧ ((p < 0 ∨ 100 < p) →
        PercentileCalibrator.init q0 p = Except.error PyErr.valueError) := by
  constructor
  · unfold PercentileCalibrator.init
    by_cases h : p < 0 ∨ 100 < p
    · simp only [if_pos h]
      constructor
      · rintro ⟨q1, hq1⟩
        cases hq1
      · rintro ⟨h0, h100⟩
        rcases h with h | h
        · exact absurd h0 (not_le.mpr h)
        · exact absurd h100 (not_le.mpr h)
    · simp only [if_neg h]
      push_neg at h
      exact ⟨fun _ => ⟨h.1, h.2⟩, fun _ => ⟨_, rfl⟩⟩
  · intro hc
    unfold PercentileCalibrator.init
    simp only [if_pos hc]

/-- Witness for C6 at concrete inputs: percentile 101 is rejected with ValueError. -/
theorem percentile_init_range_witness :
    PercentileCalibrator.init exampleQuantizer 101 = Except.error PyErr.valueError :=
  (percentile_init_range exampleQuantizer 101).2 (Or.inr (by norm_num))

/-- Embedding of torch.cumsum along dimension 0, with an explicit running
accumulator. -/
def cumsumFrom (acc : ℚ) : List ℚ → List ℚ
  | [] => []
  | x :: xs => (acc + x) :: cumsumFrom (acc + x) xs

/-- torch.cumsum of a one-dimensional tensor. -/
def cumsum (l : List ℚ) : List ℚ := cumsumFrom 0 l

/-- The binary-search loop behind torch.searchsorted (right=False): find the
lower-bound insertion index in the half-open interval [lo, hi).  Structural
fuel replaces the while loop; the interval shrinks at every step, so fuel
equal to the list length always suffices. -/
def lowerBoundAux (l : List ℚ) (v : ℚ) : ℕ → ℕ → ℕ → ℕ
  | 0, lo, _ => lo
  | fuel + 1, lo, hi =>
    if lo < hi then
      if l.getD ((lo + hi) / 2) 0 < v then lowerBoundAux l v fuel ((lo + hi) / 2 + 1) hi
      else lowerBoundAux l v fuel lo ((lo + hi) / 2)
    else lo

/-- Embedding of torch.searchsorted with right=False on a one-dimensional
sorted sequence: the index of the first element that is at least `v`
(binary search over the whole list). -/
def searchsorted (l : List ℚ) (v : ℚ) : ℕ := lowerBoundAux l v l.length 0 l.length

/-- The loop body of PercentileCalibrator.update (percentile_calibrator.py,
lines 49-56) for one channel: normalise the histogram counts by their total,
take the cumulative sum, search for the insertion index of percentile / 100,
read the bin edge there, and divide it by maxabs_bound. -/
def per_channel_step_size (hist edges : List ℚ) (maxabs_bound percentile : ℚ) : ℚ :=
  let total := hist.sum
  let cdf := cumsum (hist.map (fun x => x / total))
  let idx := searchsorted cdf (percentile / 100)
  edges.getD idx 0 / maxabs_bound

/-- The write loop of PercentileCalibrator.update: for chn in 0..n-1 assign
step_size[chn].  Assignment to an index outside the tensor would be a protocol
violation in torch; List.set leaves such indices unchanged, and the theorems
below carry the in-range hypotheses. -/
def writeStepSizes (g : ℕ → ℚ) : ℕ → List ℚ → List ℚ
  | 0, ss => ss
  | n + 1, ss => (writeStepSizes g n ss).set n (g n)

/-- Modelled from the spec: HistogramCalibrator.update (histogram_calibrator.py
is not under src/) is a no-op placeholder for parameter derivation (spec
section 4.2) that logs an actionable error when the accumulated histogram is
empty (spec section 4.2 edge case), touching neither step_size nor the hook. -/
def histogramUpdateLog (c : CalibState) : List LogEvent :=
  if c.histogram.isEmpty then
    [⟨LogLevel.error, "The histogram is empty: no data was observed before update"⟩]
  else []

/-- Modelled from the spec: HistogramCalibrator.clear (histogram_calibrator.py
is not under src/) releases the per-calibration histogram state and detaches
the hook (spec sections 3 and 4.2). -/
def CalibState.clear (c : CalibState) : CalibState :=
  { c with histogram := [], bin_edges := [], histc_bins := [], hook_handler := none }

/-- Result of a successful PercentileCalibrator.update call: the mutated
quantizer, the ambient torch deterministic-algorithms flag after the call
(`det_flag`), the flag that was in effect while the cumulative sums were
computed (`compute_flag`), and the emitted log events. -/
structure UpdateResult where
  quant : FakeQuantizer
  det_flag : Bool
  compute_flag : Bool
  log : List LogEvent
  deriving DecidableEq, Repr

/-- PercentileCalibrator.update (percentile_calibrator.py, lines 40-61):
run the base-class update, assert that the hook handle is present, save the
ambient deterministic-algorithms flag and set it to False
(use_deterministic_algorithms False, warn_only=True), derive the per-channel
step sizes from the accumulated histograms, set the flag back to the saved
value, and clear the calibration state.  `det` is the ambient flag on entry. -/
def PercentileCalibrator.update (q : FakeQuantizer) (det : Bool) :
    Except PyErr UpdateResult :=
  let baseLog := histogramUpdateLog q.calib
  match q.calib.hook_handler with
  | none => Except.error PyErr.assertionError
  | some _ =>
    let saved := det
    let during := false
    let newStep := writeStepSizes
      (fun chn => per_channel_step_size (q.calib.histogram.getD chn [])
        (q.calib.bin_edges.getD chn []) q.maxabs_bound q.calib.percentile)
      q.calib.histc_bins.length q.step_size
    Except.ok ⟨{ q with step_size := newStep, calib := q.calib.clear }, saved, during, baseLog⟩

/-- Claim C10: calling update() when no observation hook is attached
(hook_handler is None) hits the assert on hook_handler and raises
AssertionError before any parameter computation, rather than completing or
raising a ValueError. -/
theorem update_no_hook_assertion (q : FakeQuantizer) (det : Bool)
    (h : q.calib.hook_handler = none) :
    PercentileCalibrator.update q det = Except.error PyErr.assertionError := by
  unfold PercentileCalibrator.update
  rw [h]

/-- Witness for C10: the freshly constructed example quantizer has no hook,
so update raises AssertionError on it. -/
theorem update_no_hook_assertion_witness :
    PercentileCalibrator.update exampleQuantizer true = Except.error PyErr.assertionError :=
  update_no_hook_assertion exampleQuantizer true rfl

/-- Claim C5: update() on a calibrator that observed no data (empty histogram
storage) with the hook still attached returns without raising any numeric
exception, leaves step_size unchanged, and logs an actionable error. -/
theorem update_empty_histogram (q : FakeQuantizer) (det : Bool)
    (hh : q.calib.hook_handler = some ()) (hhist : q.calib.histogram = [])
    (hbins : q.calib.histc_bins = []) :
    ∃ r, PercentileCalibrator.update q det = Except.ok r
      ∧ r.quant.step_size = q.step_size
      ∧ ∃ e ∈ r.log, e.level = LogLevel.error := by
  unfold PercentileCalibrator.update
  rw [hh]
  refine ⟨_, rfl, ?_, ?_⟩
  · simp [hbins, writeStepSizes]
  · simp [histogramUpdateLog, hhist]

/-- A concrete quantizer whose calibrator is prepared (hook attached) but has
seen no observations. -/
def emptyHistQuantizer : FakeQuantizer :=
  { step_size := [2], maxabs_bound := 127, is_enabled := false,
    calib := { hook_handler := some (), histogram := [], bin_edges := [],
               histc_bins := [], percentile := 99 } }

/-- Witness for C5 at the concrete empty-histogram quantizer. -/
theorem update_empty_histogram_witness :
    ∃ r, PercentileCalibrator.update emptyHistQuantizer true = Except.ok r
      ∧ r.quant.step_size = emptyHistQuantizer.step_size
      ∧ ∃ e ∈ r.log, e.level = LogLevel.error :=
  update_empty_histogram emptyHistQuantizer true rfl rfl rfl

/-- A concrete prepared quantizer with one channel of accumulated histogram
data: counts [1, 2, 1] over bin edges [0, 1, 2, 3], percentile 50. -/
def histQuantizer : FakeQuantizer :=
  { step_size := [9], maxabs_bound := 127, is_enabled := false,
    calib := { hook_handler := some (), histogram := [[1, 2, 1]],
               bin_edges := [[0, 1, 2, 3]], histc_bins := [3], percentile := 50 } }

/-- Projection: the deterministic-algorithms flag that was in effect during
the cumulative-sum computation of a successful update call. -/
def updateComputeFlag (e : Except PyErr UpdateResult) : Option Bool :=
  match e with
  | Except.ok r => some r.compute_flag
  | Except.error _ => none

/-- Claim C2 counterexample: starting with the ambient deterministic-algorithms
mode enabled, update() runs the cumulative-sum computation with the mode set to
False (the code calls use_deterministic_algorithms False, warn_only=True), so
it does not force deterministic execution. -/
theorem update_forces_nondeterminism_counterexample :
    updateComputeFlag (PercentileCalibrator.update histQuantizer true) = some false := rfl

/-- Claim C2 (amended): update() disables the deterministic-algorithms mode for
the cumulative-sum computation (rather than forcing deterministic execution);
on normal completion the ambient flag is restored to its pre-call value, and
two runs on identical accumulated histograms yield identical step_size (the
AssertionError path never touches the flag). -/
theorem update_determinism_amended (q : FakeQuantizer) (det : Bool) (r : UpdateResult)
    (h : PercentileCalibrator.update q det = Except.ok r) :
    r.det_flag = det ∧ r.compute_flag = false
      ∧ ∀ r2, PercentileCalibrator.update q det = Except.ok r2 →
          r2.quant.step_size = r.quant.step_size := by
  unfold PercentileCalibrator.update at h
  cases hh : q.calib.hook_handler with
  | none =>
    rw [hh] at h
    cases h
  | some u =>
    rw [hh] at h
    cases h
    refine ⟨rfl, rfl, ?_⟩
    intro r2 h2
    unfold PercentileCalibrator.update at h2
    rw [hh] at h2
    cases h2
    rfl

/-- Witness for C2 (amended) at the concrete histogram quantizer with the
ambient flag initially enabled. -/
theorem update_determinism_amended_witness :
    (PercentileCalibrator.update histQuantizer true).map UpdateResult.det_flag
        = Except.ok true
    ∧ (PercentileCalibrator.update histQuantizer true).map UpdateResult.compute_flag
        = Except.ok false := by
  obtain ⟨r, hr⟩ : ∃ r, PercentileCalibrator.update histQuantizer true = Except.ok r :=
    ⟨_, rfl⟩
  obtain ⟨h1, h2, _⟩ := update_determinism_amended histQuantizer true r hr
  rw [hr]
  simp [Except.map, h1, h2]

/-- Spec-side definition, following the words of spec section 4.3 step 2: the
lower-bound insertion index of v into a cumulative distribution, i.e. the first
index whose value is at least v, or the length when no such index exists. -/
def specLowerBound (v : ℚ) : List ℚ → ℕ
  | [] => 0
  | c :: rest => if v ≤ c then 0 else specLowerBound v rest + 1

theorem specLowerBound_le_length (v : ℚ) (l : List ℚ) : specLowerBound v l ≤ l.length := by
  induction l with
  | nil => simp [specLowerBound]
  | cons c rest ih =>
    simp only [specLowerBound, List.length_cons]
    split
    · omega
    · omega

theorem specLowerBound_unique (v : ℚ) (l : List ℚ) (r : ℕ) (hr : r ≤ l.length)
    (h1 : ∀ j, j < r → l.getD j 0 < v) (h2 : r < l.length → v ≤ l.getD r 0) :
    specLowerBound v l = r := by
  induction l generalizing r with
  | nil =>
    simp only [List.length_nil, Nat.le_zero] at hr
    simp [specLowerBound, hr]
  | cons c rest ih =>
    cases r with
    | zero =>
      have hc : v ≤ c := by
        have := h2 (by simp)
        simpa using this
      simp [specLowerBound, hc]
    | succ r' =>
      have hc : c < v := by
        have := h1 0 (Nat.succ_pos r')
        simpa using this
      simp only [specLowerBound, if_neg (not_le.mpr hc)]
      have hrec := ih r' (by simpa using hr)
        (fun j hj => by simpa using h1 (j + 1) (by omega))
        (fun hlt => by simpa using h2 (by simpa using Nat.succ_lt_succ hlt))
      omega

theorem specLowerBound_mono (l : List ℚ) {v1 v2 : ℚ} (h : v1 ≤ v2) :
    specLowerBound v1 l ≤ specLowerBound v2 l := by
  induction l with
  | nil => exact le_rfl
  | cons c rest ih =>
    simp only [specLowerBound]
    by_cases h2 : v2 ≤ c
    · rw [if_pos (le_trans h h2), if_pos h2]
    · rw [if_neg h2]
      by_cases h1 : v1 ≤ c
      · rw [if_pos h1]
        omega
      · rw [if_neg h1]
        omega

/-- The sequence read through getD with default 0 is monotone on its valid
indices (the formulation of sortedness used by the binary-search proof). -/
def monoGetD (l : List ℚ) : Prop :=
  ∀ i j, i ≤ j → j < l.length → l.getD i 0 ≤ l.getD j 0

theorem lowerBoundAux_eq (l : List ℚ) (v : ℚ) (hm : monoGetD l) :
    ∀ fuel lo hi, hi - lo ≤ fuel → lo ≤ hi → hi ≤ l.length →
      (∀ j, j < lo → l.getD j 0 < v) →
      (∀ j, hi ≤ j → j < l.length → v ≤ l.getD j 0) →
      lowerBoundAux l v fuel lo hi = specLowerBound v l := by
  intro fuel
  induction fuel with
  | zero =>
    intro lo hi hfuel hlohi hhil hinv1 hinv2
    simp only [lowerBoundAux]
    exact (specLowerBound_unique v l lo (by omega) hinv1
      (fun hlt => hinv2 lo (by omega) hlt)).symm
  | succ fuel ih =>
    intro lo hi hfuel hlohi hhil hinv1 hinv2
    simp only [lowerBoundAux]
    by_cases hlh : lo < hi
    · rw [if_pos hlh]
      by_cases hc : l.getD ((lo + hi) / 2) 0 < v
      · rw [if_pos hc]
        apply ih
        · omega
        · omega
        · exact hhil
        · intro j hj
          exact lt_of_le_of_lt (hm j ((lo + hi) / 2) (by omega) (by omega)) hc
        · exact hinv2
      · rw [if_neg hc]
        push_neg at hc
        apply ih
        · omega
        · omega
        · omega
        · exact hinv1
        · intro j hj hjl
          exact le_trans hc (hm ((lo + hi) / 2) j hj hjl)
    · rw [if_neg hlh]
      exact (specLowerBound_unique v l lo (by omega) hinv1
        (fun hlt => hinv2 lo (by omega) hlt)).symm

/-- On a sorted sequence, the binary search of torch.searchsorted computes
exactly the lower-bound insertion index described by the spec. -/
theorem searchsorted_eq_specLowerBound (l : List ℚ) (v : ℚ) (hm : monoGetD l) :
    searchsorted l v = specLowerBound v l := by
  apply lowerBoundAux_eq l v hm l.length 0 l.length
  · omega
  · omega
  · exact le_rfl
  · intro j hj
    exact absurd hj (Nat.not_lt_zero j)
  · intro j hj hjl
    exact absurd hjl (by omega)

theorem cumsumFrom_length (acc : ℚ) (l : List ℚ) :
    (cumsumFrom acc l).length = l.length := by
  induction l generalizing acc with
  | nil => rfl
  | cons x xs ih => simp [cumsumFrom, ih]

theorem cumsum_length (l : List ℚ) : (cumsum l).length = l.length :=
  cumsumFrom_length 0 l

theorem le_cumsumFrom (l : List ℚ) (hl : ∀ x ∈ l, 0 ≤ x) (acc : ℚ) :
    ∀ k, k < l.length → acc ≤ (cumsumFrom acc l).getD k 0 := by
  induction l generalizing acc with
  | nil =>
    intro k hk
    simp at hk
  | cons x xs ih =>
    intro k hk
    have hx : 0 ≤ x := hl x (by simp)
    cases k with
    | zero =>
      simp only [cumsumFrom, List.getD_cons_zero]
      linarith
    | succ k' =>
      simp only [cumsumFrom, List.getD_cons_succ]
      have hrec := ih (fun y hy => hl y (by simp [hy])) (acc + x) k' (by simpa using hk)
      linarith

theorem cumsumFrom_mono (l : List ℚ) (hl : ∀ x ∈ l, 0 ≤ x) (acc : ℚ) :
    monoGetD (cumsumFrom acc l) := by
  induction l generalizing acc with
  | nil =>
    intro i j hij hj
    simp [cumsumFrom] at hj
  | cons x xs ih =>
    intro i j hij hj
    rw [cumsumFrom, List.length_cons, cumsumFrom_length] at hj
    cases i with
    | zero =>
      cases j with
      | zero => exact le_rfl
      | succ j' =>
        simp only [cumsumFrom, List.getD_cons_zero, List.getD_cons_succ]
        exact le_cumsumFrom xs (fun y hy => hl y (by simp [hy])) (acc + x) j' (by omega)
    | succ i' =>
      cases j with
      | zero => omega
      | succ j' =>
        simp only [cumsumFrom, List.getD_cons_succ]
        exact ih (fun y hy => hl y (by simp [hy])) (acc + x) i' j' (by omega)
          (by rw [cumsumFrom_length]; omega)

theorem cumsum_mono (l : List ℚ) (hl : ∀ x ∈ l, 0 ≤ x) : monoGetD (cumsum l) :=
  cumsumFrom_mono l hl 0

theorem writeStepSizes_length (g : ℕ → ℚ) (n : ℕ) (ss : List ℚ) :
    (writeStepSizes g n ss).length = ss.length := by
  induction n with
  | zero => rfl
  | succ n ih => simp [writeStepSizes, ih]

theorem writeStepSizes_getD (g : ℕ → ℚ) (n : ℕ) (ss : List ℚ) (i : ℕ) :
    (writeStepSizes g n ss).getD i 0 =
      if i < n ∧ i < ss.length then g i else ss.getD i 0 := by
  induction n with
  | zero => simp [writeStepSizes]
  | succ n ih =>
    by_cases hin : i = n
    · subst hin
      by_cases hlen : i < ss.length
      · have h1 : (writeStepSizes g (i + 1) ss).getD i 0 = g i := by
          simp only [writeStepSizes, List.getD_eq_getElem?_getD]
          rw [List.getElem?_set]
          simp [writeStepSizes_length, hlen]
        rw [h1, if_pos ⟨by omega, hlen⟩]
      · have h1 : writeStepSizes g (i + 1) ss = writeStepSizes g i ss := by
          simp only [writeStepSizes]
          exact List.set_eq_of_length_le (by rw [writeStepSizes_length]; omega)
        rw [h1, ih, if_neg (by omega), if_neg (by omega)]
    · have h1 : (writeStepSizes g (n + 1) ss).getD i 0 =
          (writeStepSizes g n ss).getD i 0 := by
        simp only [writeStepSizes, List.getD_eq_getElem?_getD]
        rw [List.getElem?_set_ne (by omega)]
      rw [h1, ih]
      by_cases hc : i < n ∧ i < ss.length
      · rw [if_pos hc, if_pos ⟨by omega, hc.2⟩]
      · rw [if_neg hc, if_neg (by omega)]

/-- The step sizes written by a successful update call are exactly the per
channel derivation applied over the channels of histc_bins. -/
theorem update_ok_step_size (q : FakeQuantizer) (det : Bool) (r : UpdateResult)
    (h : PercentileCalibrator.update q det = Except.ok r) :
    r.quant.step_size = writeStepSizes
      (fun chn => per_channel_step_size (q.calib.histogram.getD chn [])
        (q.calib.bin_edges.getD chn []) q.maxabs_bound q.calib.percentile)
      q.calib.histc_bins.length q.step_size := by
  unfold PercentileCalibrator.update at h
  cases hh : q.calib.hook_handler with
  | none =>
    rw [hh] at h
    cases h
  | some u =>
    rw [hh] at h
    cases h
    rfl

/-- For a histogram with nonnegative counts, the channel derivation equals the
bin edge at the lower-bound insertion index of percentile / 100 into the
normalised cumulative histogram, divided by maxabs_bound. -/
theorem per_channel_step_size_eq_spec (hist edges : List ℚ) (maxabs_bound percentile : ℚ)
    (hnn : ∀ x ∈ hist, 0 ≤ x) :
    per_channel_step_size hist edges maxabs_bound percentile =
      edges.getD (specLowerBound (percentile / 100)
        (cumsum (hist.map (fun x => x / hist.sum)))) 0 / maxabs_bound := by
  simp only [per_channel_step_size]
  rw [searchsorted_eq_specLowerBound]
  apply cumsum_mono
  intro y hy
  obtain ⟨x, hx, rfl⟩ := List.mem_map.mp hy
  exact div_nonneg (hnn x hx) (List.sum_nonneg hnn)

/-- Claim C4: for every in-range channel whose accumulated histogram is
non-empty (nonnegative counts with positive total), update() writes
step_size[chn] equal to the bin edge at the lower-bound insertion index of
percentile / 100 into the normalised cumulative histogram (the first index
whose cumulative value is at least percentile / 100), divided by the
maxabs_bound of the quantizer. -/
theorem update_writes_lower_bound_edge (q : FakeQuantizer) (det : Bool) (r : UpdateResult)
    (chn : ℕ) (h : PercentileCalibrator.update q det = Except.ok r)
    (hchn : chn < q.calib.histc_bins.length) (hss : chn < q.step_size.length)
    (hnn : ∀ x ∈ q.calib.histogram.getD chn [], 0 ≤ x)
    (_hpos : 0 < (q.calib.histogram.getD chn []).sum) :
    r.quant.step_size.getD chn 0 =
      (q.calib.bin_edges.getD chn []).getD
        (specLowerBound (q.calib.percentile / 100)
          (cumsum ((q.calib.histogram.getD chn []).map
            (fun x => x / (q.calib.histogram.getD chn []).sum)))) 0
        / q.maxabs_bound := by
  rw [update_ok_step_size q det r h, writeStepSizes_getD, if_pos ⟨hchn, hss⟩,
    per_channel_step_size_eq_spec _ _ _ _ hnn]

/-- Witness for C4 at the concrete histogram quantizer: counts [1, 2, 1] over
edges [0, 1, 2, 3] at percentile 50 give cumulative [1/4, 3/4, 1], insertion
index 1, edge 1, step size 1/127. -/
theorem update_writes_lower_bound_edge_witness :
    (PercentileCalibrator.update histQuantizer true).map
      (fun r => r.quant.step_size.getD 0 0) = Except.ok ((1 : ℚ) / 127) := by
  obtain ⟨r, hr⟩ : ∃ r, PercentileCalibrator.update histQuantizer true = Except.ok r :=
    ⟨_, rfl⟩
  have hs := update_writes_lower_bound_edge histQuantizer true r 0 hr (by decide)
    (by decide) (by norm_num [histQuantizer]) (by norm_num [histQuantizer])
  rw [hr]
  simp only [Except.map]
  rw [hs]
  refine congrArg Except.ok ?_
  norm_num [histQuantizer, specLowerBound, cumsum, cumsumFrom]

/-- A sorted list is monotone on its valid indices under getD reads. -/
theorem sorted_monoGetD (l : List ℚ) (hs : l.Sorted (· ≤ ·)) : monoGetD l := by
  induction l with
  | nil =>
    intro i j _ hj
    simp at hj
  | cons c rest ih =>
    rw [List.sorted_cons] at hs
    intro i j hij hj
    cases i with
    | zero =>
      cases j with
      | zero => exact le_rfl
      | succ j' =>
        have hlt : j' < rest.length := by simpa using hj
        simp only [List.getD_cons_zero, List.getD_cons_succ]
        rw [List.getD_eq_getElem?_getD, List.getElem?_eq_getElem hlt]
        exact hs.1 _ (List.getElem_mem hlt)
    | succ i' =>
      cases j with
      | zero => omega
      | succ j' =>
        simp only [List.getD_cons_succ]
        exact ih hs.2 i' j' (by omega) (by simpa using hj)

/-- For a fixed histogram with nonnegative counts, sorted bin edges of width
one more than the histogram, and a positive maxabs_bound, the channel
derivation is monotone in the percentile. -/
theorem per_channel_step_size_mono (hist edges : List ℚ) (maxabs_bound p1 p2 : ℚ)
    (hp : p1 ≤ p2) (hnn : ∀ x ∈ hist, 0 ≤ x) (hsorted : edges.Sorted (· ≤ ·))
    (hlen : hist.length < edges.length) (hb : 0 < maxabs_bound) :
    per_channel_step_size hist edges maxabs_bound p1 ≤
      per_channel_step_size hist edges maxabs_bound p2 := by
  have hmono : monoGetD (cumsum (hist.map (fun x => x / hist.sum))) := by
    apply cumsum_mono
    intro y hy
    obtain ⟨x, hx, rfl⟩ := List.mem_map.mp hy
    exact div_nonneg (hnn x hx) (List.sum_nonneg hnn)
  simp only [per_channel_step_size]
  rw [searchsorted_eq_specLowerBound _ _ hmono, searchsorted_eq_specLowerBound _ _ hmono]
  have hidx : specLowerBound (p1 / 100) (cumsum (hist.map (fun x => x / hist.sum))) ≤
      specLowerBound (p2 / 100) (cumsum (hist.map (fun x => x / hist.sum))) :=
    specLowerBound_mono _ ((div_le_div_iff_of_pos_right (by norm_num)).mpr hp)
  have hcl : (cumsum (hist.map (fun x => x / hist.sum))).length = hist.length := by
    rw [cumsum_length, List.length_map]
  have hup : specLowerBound (p2 / 100) (cumsum (hist.map (fun x => x / hist.sum))) <
      edges.length := by
    have := specLowerBound_le_length (p2 / 100) (cumsum (hist.map (fun x => x / hist.sum)))
    omega
  exact (div_le_div_iff_of_pos_right hb).mpr (sorted_monoGetD edges hsorted _ _ hidx hup)

/-- Claim C8: for a fixed accumulated histogram (nonnegative counts, sorted
bin edges one longer than the counts) and fixed positive maxabs_bound, the
step_size derived by update() is monotonically non-decreasing in the
percentile: running update with percentile p1 <= p2 on otherwise identical
quantizer states yields channelwise step_size values in the same order. -/
theorem update_step_size_monotone_in_percentile (q : FakeQuantizer) (p1 p2 : ℚ)
    (det1 det2 : Bool) (r1 r2 : UpdateResult) (chn : ℕ)
    (h1 : PercentileCalibrator.update
      { q with calib := { q.calib with percentile := p1 } } det1 = Except.ok r1)
    (h2 : PercentileCalibrator.update
      { q with calib := { q.calib with percentile := p2 } } det2 = Except.ok r2)
    (hp : p1 ≤ p2)
    (hnn : ∀ x ∈ q.calib.histogram.getD chn [], 0 ≤ x)
    (hsorted : (q.calib.bin_edges.getD chn []).Sorted (· ≤ ·))
    (hlen : (q.calib.histogram.getD chn []).length < (q.calib.bin_edges.getD chn []).length)
    (hb : 0 < q.maxabs_bound) :
    r1.quant.step_size.getD chn 0 ≤ r2.quant.step_size.getD chn 0 := by
  rw [update_ok_step_size _ det1 r1 h1, update_ok_step_size _ det2 r2 h2,
    writeStepSizes_getD, writeStepSizes_getD]
  by_cases hc : chn < q.calib.histc_bins.length ∧ chn < q.step_size.length
  · rw [if_pos hc, if_pos hc]
    exact per_channel_step_size_mono _ _ _ _ _ hp hnn hsorted hlen hb
  · rw [if_neg hc, if_neg hc]

/-- The histogram quantizer reconfigured at percentile 90. -/
def histQuantizer90 : FakeQuantizer :=
  { histQuantizer with calib := { histQuantizer.calib with percentile := 90 } }

/-- Projection: the step size a successful update writes at a channel
(0 on the error path). -/
def updateStepAt (e : Except PyErr UpdateResult) (chn : ℕ) : ℚ :=
  match e with
  | Except.ok r => r.quant.step_size.getD chn 0
  | Except.error _ => 0

/-- Witness for C8: at the concrete histogram quantizer, percentile 50 yields
a step size no larger than percentile 90 does. -/
theorem update_step_size_monotone_in_percentile_witness :
    updateStepAt (PercentileCalibrator.update histQuantizer true) 0
      ≤ updateStepAt (PercentileCalibrator.update histQuantizer90 true) 0 := by
  obtain ⟨r1, h1⟩ : ∃ r, PercentileCalibrator.update histQuantizer true = Except.ok r :=
    ⟨_, rfl⟩
  obtain ⟨r2, h2⟩ : ∃ r, PercentileCalibrator.update histQuantizer90 true = Except.ok r :=
    ⟨_, rfl⟩
  have hm := update_step_size_monotone_in_percentile histQuantizer 50 90 true true r1 r2 0
    h1 h2 (by norm_num) (by norm_num [histQuantizer])
    (by norm_num [histQuantizer, List.sorted_cons]) (by norm_num [histQuantizer])
    (by norm_num [histQuantizer])
  simp only [updateStepAt, h1, h2]
  exact hm

/-- Modelled from the spec: the model lifecycle status marker (enums.py is not
under src/); the calibration core only ever writes the CALIBRATED marker
(spec section 6). -/
inductive OwLiteStatus
  | COMPILED
  | CALIBRATED
  deriving DecidableEq, Repr

/-- A named module of the traversed model: either a FakeQuantizer or any
other module (the latter is skipped by the isinstance check in
calibrators.py, line 35). -/
inductive NNModule
  | fakeQuantizer (q : FakeQuantizer)
  | plain
  deriving DecidableEq, Repr

/-- The traversed model: its named modules (named_modules with
remove_duplicate=True) together with the owlite_status entry of its meta
dictionary. -/
structure GraphModule where
  modules : List (String × NNModule)
  owlite_status : Option OwLiteStatus
  deriving DecidableEq, Repr

/-- step_size.abs().max() as read on line 37 of calibrators.py (0 for the
empty tensor, on which torch itself would raise). -/
def maxAbs (l : List ℚ) : ℚ := (l.map (fun s => |s|)).foldr max 0

/-- step_size.min() as read on line 42 of calibrators.py (0 for the empty
tensor, on which torch itself would raise). -/
def minList : List ℚ → ℚ
  | [] => 0
  | x :: xs => xs.foldl min x

/-- Lines 37-48 of calibrators.py, the per-quantizer logic that follows
calibrator.update(): if every step size is zero, log an error and skip the
quantizer (the continue statement, so it is never enabled); otherwise coerce
negative step sizes to absolute values with a warning, then enable. -/
def postProcess (q : FakeQuantizer) : FakeQuantizer × List LogEvent :=
  if maxAbs q.step_size ≤ 0 then
    (q, [⟨LogLevel.error,
      "The step sizes are all zero. Make sure the data is fed to the quantizer correctly"⟩])
  else if minList q.step_size < 0 then
    ({ q with step_size := q.step_size.map (fun s => |s|), is_enabled := true },
     [⟨LogLevel.warning,
       "The step size contains a negative number. Automatically changed to positive"⟩])
  else
    ({ q with is_enabled := true }, [])

/-- The traversal loop of _update_fake_quantizers (calibrators.py, lines
34-48): visit every named module in order; on a FakeQuantizer run
calibrator.update (threading the ambient deterministic-mode flag) followed by
the per-quantizer post-processing; exceptions propagate and abort the
traversal. -/
def processModules : List (String × NNModule) → Bool →
    Except PyErr (List (String × NNModule) × Bool × List LogEvent)
  | [], det => Except.ok ([], det, [])
  | (name, NNModule.plain) :: rest, det =>
    (processModules rest det).map (fun x => ((name, NNModule.plain) :: x.1, x.2.1, x.2.2))
  | (name, NNModule.fakeQuantizer q) :: rest, det =>
    match PercentileCalibrator.update q det with
    | Except.error e => Except.error e
    | Except.ok r =>
      match processModules rest r.det_flag with
      | Except.error e => Except.error e
      | Except.ok (ms, det2, lg3) =>
        Except.ok ((name, NNModule.fakeQuantizer (postProcess r.quant).1) :: ms, det2,
          r.log ++ (postProcess r.quant).2 ++ lg3)

/-- _update_fake_quantizers (calibrators.py, lines 27-53): run the traversal
loop, then set the owlite_status meta entry to CALIBRATED, with the info
messages around the pass. -/
def update_fake_quantizers (m : GraphModule) (det : Bool) :
    Except PyErr (GraphModule × Bool × List LogEvent) :=
  match processModules m.modules det with
  | Except.error e => Except.error e
  | Except.ok (ms, det2, lg) =>
    Except.ok ({ modules := ms, owlite_status := some OwLiteStatus.CALIBRATED }, det2,
      ⟨LogLevel.info, "Updating fake quantizers based on collected data"⟩ :: lg
        ++ [⟨LogLevel.info, "Updated fake quantizers. Calibration finished"⟩])

/-- CalibrationContext.__exit__ (calibrators.py, lines 66-72): the exception
triple is ignored, _update_fake_quantizers always runs, and the method returns
None (modelled as the none suppression indicator, so a pending exception is
never suppressed). -/
def CalibrationContext.exit (m : GraphModule) (det : Bool) (_excInfo : Option PyErr) :
    Except PyErr (GraphModule × Bool × List LogEvent) × Option Bool :=
  (update_fake_quantizers m det, none)

/-- Claim C3: __exit__ runs the finalization pass unconditionally — its result
is the finalization result whatever the exception info is (so finalization
also runs when the enclosed block raised) — and its suppression slot is always
none rather than true, so a pending exception propagates. -/
theorem calibration_context_exit_unconditional (m : GraphModule) (det : Bool)
    (exc : Option PyErr) :
    CalibrationContext.exit m det exc = (update_fake_quantizers m det, none)
    ∧ CalibrationContext.exit m det exc = CalibrationContext.exit m det none :=
  ⟨rfl, rfl⟩

theorem foldl_min_le (xs : List ℚ) (a : ℚ) :
    xs.foldl min a ≤ a ∧ ∀ s ∈ xs, xs.foldl min a ≤ s := by
  induction xs generalizing a with
  | nil => exact ⟨le_rfl, by simp⟩
  | cons x xs ih =>
    simp only [List.foldl_cons]
    obtain ⟨h1, h2⟩ := ih (min a x)
    refine ⟨le_trans h1 (min_le_left a x), ?_⟩
    intro s hs
    rcases List.mem_cons.mp hs with rfl | hs
    · exact le_trans h1 (min_le_right a s)
    · exact h2 s hs

theorem minList_le (l : List ℚ) : ∀ s ∈ l, minList l ≤ s := by
  intro s hs
  cases l with
  | nil => cases hs
  | cons x xs =>
    rcases List.mem_cons.mp hs with rfl | hs
    · exact (foldl_min_le xs s).1
    · exact (foldl_min_le xs x).2 s hs

/-- After postProcess, a quantizer whose step sizes are not all zero is
enabled, and all its step sizes are nonnegative. -/
theorem postProcess_enabled (q : FakeQuantizer)
    (h : ¬ maxAbs (postProcess q).1.step_size ≤ 0) :
    (postProcess q).1.is_enabled = true ∧ ∀ s ∈ (postProcess q).1.step_size, 0 ≤ s := by
  by_cases h0 : maxAbs q.step_size ≤ 0
  · refine absurd ?_ h
    simp only [postProcess, if_pos h0]
    exact h0
  · by_cases hneg : minList q.step_size < 0
    · simp only [postProcess, if_neg h0, if_pos hneg]
      refine ⟨by trivial, ?_⟩
      intro s hs
      obtain ⟨x, hx, rfl⟩ := List.mem_map.mp hs
      exact abs_nonneg x
    · simp only [postProcess, if_neg h0, if_neg hneg]
      refine ⟨by trivial, ?_⟩
      intro s hs
      push_neg at hneg
      exact le_trans hneg (minList_le _ s hs)

/-- Every fake quantizer in the output of the traversal loop whose step sizes
are not all zero is enabled with nonnegative step sizes. -/
theorem processModules_out (ms : List (String × NNModule)) (det : Bool)
    (out : List (String × NNModule) × Bool × List LogEvent)
    (h : processModules ms det = Except.ok out) :
    ∀ (i : ℕ) name q', out.1[i]? = some (name, NNModule.fakeQuantizer q') →
      ¬ maxAbs q'.step_size ≤ 0 →
      q'.is_enabled = true ∧ ∀ s ∈ q'.step_size, 0 ≤ s := by
  induction ms generalizing det out with
  | nil =>
    cases h
    intro i name q' hi
    simp at hi
  | cons hd rest ih =>
    obtain ⟨name0, md⟩ := hd
    cases md with
    | plain =>
      simp only [processModules] at h
      cases hrest : processModules rest det with
      | error e =>
        rw [hrest] at h
        cases h
      | ok x =>
        rw [hrest] at h
        simp only [Except.map] at h
        cases h
        intro i name q' hi hdeg
        cases i with
        | zero => simp at hi
        | succ i' =>
          simp only [List.getElem?_cons_succ] at hi
          exact ih det x hrest i' name q' hi hdeg
    | fakeQuantizer q =>
      simp only [processModules] at h
      cases hup : PercentileCalibrator.update q det with
      | error e =>
        simp only [hup] at h
        simp at h
      | ok r =>
        simp only [hup] at h
        cases hrest : processModules rest r.det_flag with
        | error e =>
          simp only [hrest] at h
          simp at h
        | ok x =>
          obtain ⟨ms2, det3, lg3⟩ := x
          simp only [hrest] at h
          cases h
          intro i name q' hi hdeg
          cases i with
          | zero =>
            simp only [List.getElem?_cons_zero, Option.some_inj, Prod.mk.injEq,
              NNModule.fakeQuantizer.injEq] at hi
            obtain ⟨-, hq⟩ := hi
            subst hq
            exact postProcess_enabled r.quant hdeg
          | succ i' =>
            simp only [List.getElem?_cons_succ] at hi
            exact ih r.det_flag (ms2, det3, lg3) hrest i' name q' hi hdeg

/-- The traversal loop succeeds whenever every fake quantizer still has its
observation hook attached. -/
theorem processModules_total (ms : List (String × NNModule)) (det : Bool)
    (hhook : ∀ name q, (name, NNModule.fakeQuantizer q) ∈ ms →
      q.calib.hook_handler = some ()) :
    ∃ out, processModules ms det = Except.ok out := by
  induction ms generalizing det with
  | nil => exact ⟨_, rfl⟩
  | cons hd rest ih =>
    obtain ⟨name0, md⟩ := hd
    cases md with
    | plain =>
      obtain ⟨out, hout⟩ := ih det (fun n q hq => hhook n q (List.mem_cons_of_mem _ hq))
      refine ⟨((name0, NNModule.plain) :: out.1, out.2.1, out.2.2), ?_⟩
      simp only [processModules, hout, Except.map]
    | fakeQuantizer q =>
      have hq := hhook name0 q (List.mem_cons_self _ _)
      obtain ⟨r, hr⟩ : ∃ r, PercentileCalibrator.update q det = Except.ok r := by
        unfold PercentileCalibrator.update
        rw [hq]
        exact ⟨_, rfl⟩
      obtain ⟨⟨ms2, det3, lg3⟩, hout⟩ :=
        ih r.det_flag (fun n q2 hq2 => hhook n q2 (List.mem_cons_of_mem _ hq2))
      refine ⟨((name0, NNModule.fakeQuantizer (postProcess r.quant).1) :: ms2, det3,
        r.log ++ (postProcess r.quant).2 ++ lg3), ?_⟩
      simp only [processModules, hr, hout]

/-- The finalization pass succeeds whenever every fake quantizer still has
its observation hook attached. -/
theorem update_fake_quantizers_total (m : GraphModule) (det : Bool)
    (hhook : ∀ name q, (name, NNModule.fakeQuantizer q) ∈ m.modules →
      q.calib.hook_handler = some ()) :
    ∃ out, update_fake_quantizers m det = Except.ok out := by
  obtain ⟨⟨ms, det2, lg⟩, hout⟩ := processModules_total m.modules det hhook
  refine ⟨({ modules := ms, owlite_status := some OwLiteStatus.CALIBRATED }, det2,
    ⟨LogLevel.info, "Updating fake quantizers based on collected data"⟩ :: lg
      ++ [⟨LogLevel.info, "Updated fake quantizers. Calibration finished"⟩]), ?_⟩
  simp only [update_fake_quantizers, hout]

/-- Claim C7: after the finalization pass completes, the status marker equals
CALIBRATED; every quantizer in the result whose step_size is non-degenerate
(not all zeros) is enabled and all its per-channel step sizes are
nonnegative; and a quantizer whose derived step_size has a negative channel
(without being all zero) is coerced channelwise to absolute values with a
warning before being enabled. -/
theorem update_fake_quantizers_spec (m : GraphModule) (det : Bool) (m2 : GraphModule)
    (det2 : Bool) (lg : List LogEvent)
    (h : update_fake_quantizers m det = Except.ok (m2, det2, lg)) :
    m2.owlite_status = some OwLiteStatus.CALIBRATED
    ∧ (∀ (i : ℕ) name q', m2.modules[i]? = some (name, NNModule.fakeQuantizer q') →
        ¬ maxAbs q'.step_size ≤ 0 →
        q'.is_enabled = true ∧ ∀ s ∈ q'.step_size, 0 ≤ s)
    ∧ (∀ q, ¬ maxAbs q.step_size ≤ 0 → minList q.step_size < 0 →
        postProcess q = ({ q with
            step_size := q.step_size.map (fun s => abs s),
            is_enabled := true },
          [⟨LogLevel.warning,
            "The step size contains a negative number. Automatically changed to positive"⟩])) := by
  unfold update_fake_quantizers at h
  cases hpm : processModules m.modules det with
  | error e =>
    rw [hpm] at h
    cases h
  | ok x =>
    rw [hpm] at h
    obtain ⟨ms, det3, lg3⟩ := x
    cases h
    refine ⟨rfl, ?_, ?_⟩
    · intro i name q' hi hdeg
      exact processModules_out m.modules det _ hpm i name q' hi hdeg
    · intro q h0 hneg
      simp only [postProcess, if_neg h0, if_pos hneg]

/-- A one-quantizer model built around the concrete histogram quantizer. -/
def exGraphModule : GraphModule :=
  { modules := [("q1", NNModule.fakeQuantizer histQuantizer)], owlite_status := none }

/-- Witness for C7: finalizing the concrete one-quantizer model sets the
status marker to CALIBRATED. -/
theorem update_fake_quantizers_spec_witness :
    (update_fake_quantizers exGraphModule true).map (fun x => x.1.owlite_status)
      = Except.ok (some OwLiteStatus.CALIBRATED) := by
  obtain ⟨⟨m2, det2, lg⟩, hout⟩ := update_fake_quantizers_total exGraphModule true
    (by
      intro name q hq
      simp only [exGraphModule, List.mem_singleton, Prod.mk.injEq,
        NNModule.fakeQuantizer.injEq] at hq
      rw [hq.2]
      rfl)
  obtain ⟨h1, -, -⟩ := update_fake_quantizers_spec exGraphModule true m2 det2 lg hout
  rw [hout]
  simp [Except.map, h1]

/-- A successful update call never touches the enablement flag of the
quantizer. -/
theorem update_preserves_enabled (q : FakeQuantizer) (det : Bool) (r : UpdateResult)
    (h : PercentileCalibrator.update q det = Except.ok r) :
    r.quant.is_enabled = q.is_enabled := by
  unfold PercentileCalibrator.update at h
  cases hh : q.calib.hook_handler with
  | none =>
    rw [hh] at h
    cases h
  | some u =>
    rw [hh] at h
    cases h
    rfl

/-- A prepared one-channel quantizer whose derived step size is zero: at
percentile 0 the insertion index is 0 and the bin edge there is 0. -/
def zeroStepQuantizer : FakeQuantizer :=
  { step_size := [5], maxabs_bound := 127, is_enabled := false,
    calib := { hook_handler := some (), histogram := [[1]], bin_edges := [[0, 1]],
               histc_bins := [1], percentile := 0 } }

/-- A one-quantizer model around the zero-step quantizer. -/
def zeroStepModel : GraphModule :=
  { modules := [("q0", NNModule.fakeQuantizer zeroStepQuantizer)], owlite_status := none }

/-- Projection: the enablement flag of the first module of a successful
finalization result. -/
def firstModuleEnabled (e : Except PyErr (GraphModule × Bool × List LogEvent)) :
    Option Bool :=
  match e with
  | Except.ok (m, _, _) =>
    match m.modules with
    | (_, NNModule.fakeQuantizer q) :: _ => some q.is_enabled
    | _ => none
  | Except.error _ => none

/-- Claim C1 counterexample: on the concrete model whose single quantizer
derives an all-zero step_size, the finalization pass logs the all-zero error
and completes, but the quantizer is NOT enabled afterwards (the continue
statement skips module.enable), refuting that it is still enabled. -/
theorem degenerate_quantizer_enabled_counterexample :
    firstModuleEnabled (update_fake_quantizers zeroStepModel true) = some false
    ∧ (update_fake_quantizers zeroStepModel true).map (fun x => x.2.2) = Except.ok
        [⟨LogLevel.info, "Updating fake quantizers based on collected data"⟩,
         ⟨LogLevel.error,
           "The step sizes are all zero. Make sure the data is fed to the quantizer correctly"⟩,
         ⟨LogLevel.info, "Updated fake quantizers. Calibration finished"⟩] := by
  constructor <;>
    norm_num [update_fake_quantizers, processModules, zeroStepModel, zeroStepQuantizer,
      PercentileCalibrator.update, postProcess, maxAbs, minList, writeStepSizes,
      per_channel_step_size, cumsum, cumsumFrom, searchsorted, lowerBoundAux,
      histogramUpdateLog, CalibState.clear, firstModuleEnabled, Except.map]

/-- Claim C1 (amended): when a quantizer's derived step_size is all zeros, the
finalization loop logs the all-zero error and skips the enable step — the
quantizer keeps its previous enablement flag, i.e. it is left disabled in the
calibration flow — while the remaining modules are still processed. -/
theorem degenerate_quantizer_skipped (name : String) (q : FakeQuantizer)
    (rest : List (String × NNModule)) (det : Bool) (r : UpdateResult)
    (hup : PercentileCalibrator.update q det = Except.ok r)
    (hdeg : maxAbs r.quant.step_size ≤ 0) :
    r.quant.is_enabled = q.is_enabled
    ∧ processModules ((name, NNModule.fakeQuantizer q) :: rest) det =
        (processModules rest r.det_flag).map (fun x =>
          ((name, NNModule.fakeQuantizer r.quant) :: x.1, x.2.1,
            r.log ++ [⟨LogLevel.error,
              "The step sizes are all zero. Make sure the data is fed to the quantizer correctly"⟩]
              ++ x.2.2)) := by
  refine ⟨update_preserves_enabled q det r hup, ?_⟩
  have hpp : postProcess r.quant = (r.quant, [⟨LogLevel.error,
      "The step sizes are all zero. Make sure the data is fed to the quantizer correctly"⟩]) := by
    simp only [postProcess, if_pos hdeg]
  simp only [processModules, hup, hpp]
  cases hrest : processModules rest r.det_flag with
  | error e => simp [Except.map]
  | ok x => simp [Except.map]

/-- Witness for C1 (amended): the zero-step quantizer comes out of the
finalization step with its enablement flag unchanged (still disabled). -/
theorem degenerate_quantizer_skipped_witness :
    (PercentileCalibrator.update zeroStepQuantizer true).map
      (fun r => r.quant.is_enabled) = Except.ok zeroStepQuantizer.is_enabled := by
  have hup : PercentileCalibrator.update zeroStepQuantizer true = Except.ok
      ⟨{ step_size := [0], maxabs_bound := 127, is_enabled := false,
         calib := { hook_handler := none, histogram := [], bin_edges := [],
                    histc_bins := [], percentile := 0 } }, true, false, []⟩ := by
    norm_num [PercentileCalibrator.update, zeroStepQuantizer, writeStepSizes,
      per_channel_step_size, cumsum, cumsumFrom, searchsorted, lowerBoundAux,
      histogramUpdateLog, CalibState.clear]
  have hd := degenerate_quantizer_skipped "q0" zeroStepQuantizer [] true _ hup
    (by norm_num [maxAbs])
  rw [hup]
  exact congrArg Except.ok hd.1
